import Mathlib

/-!
Verification development for the MeanShiftR core: the cylinder membership
test, vertical distance and Epanechnikov-style vertical kernel, the
Gaussian-style horizontal kernel (src/LittleFunctionsCollection.cpp), and
the greedy first-match mode clustering routine (src/FindCluster.cpp).
C++ doubles are modelled as real numbers; the loops of FindCluster are
modelled as structural recursion over the list of centroids.
-/

noncomputable section

/-- Embeds `InCylinder` from LittleFunctionsCollection.cpp: true iff the
squared planar distance to the center is at most the squared radius and the
z coordinate lies between `CtrZ - 0.5*Height` and `CtrZ + 0.5*Height`. -/
def InCylinder (PointX PointY PointZ Radius Height CtrX CtrY CtrZ : ℝ) : Prop :=
  (PointX - CtrX) ^ 2 + (PointY - CtrY) ^ 2 ≤ Radius ^ 2 ∧
    PointZ ≥ CtrZ - 0.5 * Height ∧ PointZ ≤ CtrZ + 0.5 * Height

/-- Embeds `VerticalDistance` from LittleFunctionsCollection.cpp: the minimum
of the absolute normalized distances to the bottom plane `CtrZ - Height/4`
and the top plane `CtrZ + Height/2`, each divided by `3*Height/8` inside the
absolute value, exactly as the source computes it. -/
def VerticalDistance (Height CtrZ PointZ : ℝ) : ℝ :=
  min |(CtrZ - Height / 4 - PointZ) / (3 * Height / 8)|
    |(CtrZ + Height / 2 - PointZ) / (3 * Height / 8)|

/-- Embeds `EpanechnikovFunction` from LittleFunctionsCollection.cpp: inside
the window `[CtrZ - Height/4, CtrZ + Height/2]` it returns
`1 - (1 - VerticalDistance)^2`, otherwise `0`. -/
def EpanechnikovFunction (Height CtrZ PointZ : ℝ) : ℝ :=
  if PointZ ≥ CtrZ - Height / 4 ∧ PointZ ≤ CtrZ + Height / 2 then
    1 - (1 - VerticalDistance Height CtrZ PointZ) ^ 2
  else 0

/-- Embeds the local variable `Distance` of `GaussFunction`: the planar
Euclidean distance between the point and the center. -/
def planarDistance (CtrX CtrY PointX PointY : ℝ) : ℝ :=
  Real.sqrt ((PointX - CtrX) ^ 2 + (PointY - CtrY) ^ 2)

/-- Embeds `GaussFunction` from LittleFunctionsCollection.cpp:
`exp (-5 * (Distance / (Width/2))^2)`. -/
def GaussFunction (Width CtrX CtrY PointX PointY : ℝ) : ℝ :=
  Real.exp (-5 * (planarDistance CtrX CtrY PointX PointY / (Width / 2)) ^ 2)

/-- A centroid row of the matrix `ctr` of FindCluster.cpp: an (x, y, z)
triple of coordinates. -/
abbrev Point3 := ℝ × ℝ × ℝ

/-- Default value used for out-of-range list access; the C++ code never
reads out of range, so this value is never observable. -/
def default3 : Point3 := (0, 0, 0)

/-- Embeds the distance `delta` computed in the inner loop of FindCluster.cpp:
the 3D Euclidean distance between two centroids. -/
def dist3 (p q : Point3) : ℝ :=
  Real.sqrt ((p.1 - q.1) ^ 2 + (p.2.1 - q.2.1) ^ 2 + (p.2.2 - q.2.2) ^ 2)

/-- Row access `ctr(i, _)` of the centroid matrix. -/
def ctrGet (ctr : List Point3) (i : ℕ) : Point3 :=
  ctr.getD i default3

/-- Embeds the inner loop of FindCluster.cpp: scan the earlier centroids in
order (the list argument is the prefix of rows before row i, with `j` the
index of its head and `dflt = i` the initial id); return the index of the
first centroid whose distance to `p` is strictly below `eps`, and the
default when none matches. -/
def innerScan (eps : ℝ) (p : Point3) : List Point3 → ℕ → ℕ → ℕ
  | [], _, dflt => dflt
  | q :: rest, j, dflt =>
    if dist3 p q < eps then j else innerScan eps p rest (j + 1) dflt

/-- Embeds the outer loop of FindCluster.cpp: the vector `clus` of cluster
ids, one per centroid row, in input order. -/
def findClusterIds (ctr : List Point3) (eps : ℝ) : List ℕ :=
  (List.range ctr.length).map fun i => innerScan eps (ctrGet ctr i) (ctr.take i) 0 i

/-- Embeds `FindCluster` from FindCluster.cpp: the returned data frame, one
row (x, y, z, id) per input centroid, in input order. -/
def FindCluster (ctr : List Point3) (eps : ℝ) : List (Point3 × ℕ) :=
  ctr.zip (findClusterIds ctr eps)

/-- Modelled from the spec: "id(i) = the smallest j < i such that the 3D
Euclidean distance between centroid i and centroid j is strictly less than
epsilon ...; if no such j exists, id(i) = i". Stated with `Nat.find`, the
least witness of the existential. -/
def leastMatchId (ctr : List Point3) (eps : ℝ) (i : ℕ) : ℕ :=
  if h : ∃ j, j < i ∧ dist3 (ctrGet ctr i) (ctrGet ctr j) < eps then Nat.find h
  else i

/-- Modelled from the spec: "the coordinates of its own output's leaders" —
the sequence that replaces each centroid by the coordinates of the centroid
its id points to. -/
def leaderCoords (ctr : List Point3) (eps : ℝ) : List Point3 :=
  (findClusterIds ctr eps).map (ctrGet ctr)

end

/-- C4: GaussFunction(w, cx, cy, px, py) equals
exp(-5 * (d / (w/2))^2) where d is the planar Euclidean distance between the
point and the center; in particular for width 2 and planar distance 1 the
weight equals exp(-5). -/
theorem GaussFunction_formula (w cx cy px py : ℝ) :
    GaussFunction w cx cy px py =
      Real.exp (-5 * (Real.sqrt ((px - cx) ^ 2 + (py - cy) ^ 2) / (w / 2)) ^ 2) ∧
    GaussFunction 2 0 0 1 0 = Real.exp (-5) := by
  constructor
  · rfl
  · have h1 : ((1 : ℝ) - 0) ^ 2 + ((0 : ℝ) - 0) ^ 2 = 1 := by norm_num
    rw [GaussFunction, planarDistance, h1, Real.sqrt_one]
    norm_num

lemma verticalDistance_nonneg (h cz pz : ℝ) : 0 ≤ VerticalDistance h cz pz :=
  le_min (abs_nonneg _) (abs_nonneg _)

lemma verticalDistance_zero_height (cz pz : ℝ) : VerticalDistance 0 cz pz = 0 := by
  simp [VerticalDistance]

lemma verticalDistance_le_one {h cz pz : ℝ}
    (hmem : cz - h / 4 ≤ pz ∧ pz ≤ cz + h / 2) : VerticalDistance h cz pz ≤ 1 := by
  obtain ⟨h1, h2⟩ := hmem
  have hh : 0 ≤ h := by linarith
  rcases eq_or_lt_of_le hh with he | hpos
  · rw [← he, verticalDistance_zero_height]
    norm_num
  · have hc : 0 < 3 * h / 8 := by linarith
    have hb : |(cz - h / 4 - pz) / (3 * h / 8)| = (pz - (cz - h / 4)) / (3 * h / 8) := by
      rw [abs_div, abs_of_pos hc, abs_of_nonpos (by linarith : cz - h / 4 - pz ≤ 0)]
      ring
    have ht : |(cz + h / 2 - pz) / (3 * h / 8)| = (cz + h / 2 - pz) / (3 * h / 8) :=
      abs_of_nonneg (div_nonneg (by linarith) hc.le)
    have hsum : (pz - (cz - h / 4)) / (3 * h / 8) + (cz + h / 2 - pz) / (3 * h / 8) = 2 := by
      rw [div_add_div_same, div_eq_iff (ne_of_gt hc)]
      ring
    rw [VerticalDistance, hb, ht]
    by_contra hgt
    push_neg at hgt
    rw [lt_min_iff] at hgt
    linarith [hgt.1, hgt.2]

lemma verticalDistance_eq_min_div {h cz pz : ℝ}
    (hmem : cz - h / 4 ≤ pz ∧ pz ≤ cz + h / 2) :
    VerticalDistance h cz pz =
      min |cz - h / 4 - pz| |cz + h / 2 - pz| / (3 * h / 8) := by
  obtain ⟨h1, h2⟩ := hmem
  have hh : 0 ≤ h := by linarith
  rcases eq_or_lt_of_le hh with he | hpos
  · rw [← he, verticalDistance_zero_height]
    norm_num
  · have hc : 0 < 3 * h / 8 := by linarith
    have e1 : |(cz - h / 4 - pz) / (3 * h / 8)| = |cz - h / 4 - pz| / (3 * h / 8) := by
      rw [abs_div, abs_of_pos hc]
    have e2 : |(cz + h / 2 - pz) / (3 * h / 8)| = |cz + h / 2 - pz| / (3 * h / 8) := by
      rw [abs_div, abs_of_pos hc]
    rw [VerticalDistance, e1, e2, min_div_div_right hc.le]

lemma epan_of_mem {h cz pz : ℝ} (hmem : cz - h / 4 ≤ pz ∧ pz ≤ cz + h / 2) :
    EpanechnikovFunction h cz pz = 1 - (1 - VerticalDistance h cz pz) ^ 2 := by
  rw [EpanechnikovFunction, if_pos ⟨hmem.1, hmem.2⟩]

lemma epan_of_not_mem {h cz pz : ℝ} (hmem : ¬(cz - h / 4 ≤ pz ∧ pz ≤ cz + h / 2)) :
    EpanechnikovFunction h cz pz = 0 := by
  rw [EpanechnikovFunction, if_neg]
  exact fun hc => hmem ⟨hc.1, hc.2⟩

lemma epan_nonneg (h cz pz : ℝ) : 0 ≤ EpanechnikovFunction h cz pz := by
  by_cases hmem : cz - h / 4 ≤ pz ∧ pz ≤ cz + h / 2
  · rw [epan_of_mem hmem]
    have h1 := verticalDistance_nonneg h cz pz
    have h2 := verticalDistance_le_one hmem
    nlinarith [mul_nonneg h1 (by linarith : (0 : ℝ) ≤ 2 - VerticalDistance h cz pz)]
  · rw [epan_of_not_mem hmem]

lemma epan_zero_of_two_lt {h cz pz : ℝ} (hvd : 2 < VerticalDistance h cz pz) :
    EpanechnikovFunction h cz pz = 0 := by
  by_cases hmem : cz - h / 4 ≤ pz ∧ pz ≤ cz + h / 2
  · exact absurd (verticalDistance_le_one hmem) (by linarith)
  · exact epan_of_not_mem hmem

lemma vd_eight_peak : VerticalDistance 8 0 1 = 1 := by
  rw [VerticalDistance,
    show ((0 : ℝ) - 8 / 4 - 1) / (3 * 8 / 8) = -1 by norm_num,
    show ((0 : ℝ) + 8 / 2 - 1) / (3 * 8 / 8) = 1 by norm_num]
  simp

lemma vd_far : VerticalDistance 1 0 10 = 76 / 3 := by
  rw [VerticalDistance,
    show ((0 : ℝ) - 1 / 4 - 10) / (3 * 1 / 8) = -(82 / 3) by norm_num,
    show ((0 : ℝ) + 1 / 2 - 10) / (3 * 1 / 8) = -(76 / 3) by norm_num,
    abs_neg, abs_neg,
    abs_of_nonneg (by norm_num : (0 : ℝ) ≤ 82 / 3),
    abs_of_nonneg (by norm_num : (0 : ℝ) ≤ 76 / 3),
    min_eq_right (by norm_num : (76 : ℝ) / 3 ≤ 82 / 3)]

/-- C2: the vertical kernel weight is 0 whenever pz lies outside the window
[cz - h/4, cz + h/2], and inside the window it equals 1 - (1 - d)^2 where
d = VerticalDistance h cz pz = min |cz - h/4 - pz| |cz + h/2 - pz| / (3h/8). -/
theorem EpanechnikovFunction_window_spec (h cz pz : ℝ) :
    (¬(cz - h / 4 ≤ pz ∧ pz ≤ cz + h / 2) → EpanechnikovFunction h cz pz = 0) ∧
    ((cz - h / 4 ≤ pz ∧ pz ≤ cz + h / 2) →
      VerticalDistance h cz pz =
        min |cz - h / 4 - pz| |cz + h / 2 - pz| / (3 * h / 8) ∧
      EpanechnikovFunction h cz pz = 1 - (1 - VerticalDistance h cz pz) ^ 2) :=
  ⟨fun hmem => epan_of_not_mem hmem,
   fun hmem => ⟨verticalDistance_eq_min_div hmem, epan_of_mem hmem⟩⟩

/-- Witness for C2 at height 8, center z 0, point z 1 (inside the window). -/
theorem EpanechnikovFunction_window_spec_witness :
    ((0 : ℝ) - 8 / 4 ≤ 1 ∧ (1 : ℝ) ≤ 0 + 8 / 2) ∧
    (VerticalDistance 8 0 1 =
      min |(0 : ℝ) - 8 / 4 - 1| |(0 : ℝ) + 8 / 2 - 1| / (3 * 8 / 8) ∧
     EpanechnikovFunction 8 0 1 = 1 - (1 - VerticalDistance 8 0 1) ^ 2) :=
  ⟨by norm_num, (EpanechnikovFunction_window_spec 8 0 1).2 (by norm_num)⟩

/-- C5 counterexample: at height 8 > 0 and center z 0, the peak point
z = 0 + 8/8 has VerticalDistance 1, not 0 as the claim states. -/
theorem VerticalDistance_peak_counterexample :
    (0 : ℝ) < 8 ∧ VerticalDistance 8 0 (0 + 8 / 8) ≠ 0 := by
  constructor
  · norm_num
  · rw [show (0 : ℝ) + 8 / 8 = 1 by norm_num, vd_eight_peak]
    norm_num

/-- C5 amended: for h > 0, at pz = cz + h/8 the vertical kernel weight
equals 1, and VerticalDistance equals 1 there (not 0): the inside-window
weight formula 1 - (1 - d)^2 attains its maximum 1 at d = 1. -/
theorem EpanechnikovFunction_peak (h cz : ℝ) (hh : 0 < h) :
    EpanechnikovFunction h cz (cz + h / 8) = 1 ∧
    VerticalDistance h cz (cz + h / 8) = 1 := by
  have hc : (3 : ℝ) * h / 8 ≠ 0 := by positivity
  have hvd : VerticalDistance h cz (cz + h / 8) = 1 := by
    rw [VerticalDistance,
      show (cz - h / 4 - (cz + h / 8)) / (3 * h / 8) = -1 by
        rw [div_eq_iff hc]; ring,
      show (cz + h / 2 - (cz + h / 8)) / (3 * h / 8) = 1 by
        rw [div_eq_iff hc]; ring]
    simp
  refine ⟨?_, hvd⟩
  rw [epan_of_mem ⟨by linarith, by linarith⟩, hvd]
  norm_num

/-- Witness for the amended C5 at height 8, center z 0. -/
theorem EpanechnikovFunction_peak_witness :
    (0 : ℝ) < 8 ∧ EpanechnikovFunction 8 0 (0 + 8 / 8) = 1 :=
  ⟨by norm_num, (EpanechnikovFunction_peak 8 0 (by norm_num)).1⟩

/-- C6 counterexample: the claim's negation — there is no input with
VerticalDistance > 2 on which the vertical kernel weight is negative; the
window mask already forces the weight to 0 whenever VerticalDistance
exceeds 1. -/
theorem EpanechnikovFunction_no_negative :
    ¬∃ h cz pz : ℝ,
      2 < VerticalDistance h cz pz ∧ EpanechnikovFunction h cz pz < 0 := by
  rintro ⟨h, cz, pz, hvd, hneg⟩
  rw [epan_zero_of_two_lt hvd] at hneg
  exact lt_irrefl 0 hneg

/-- C6 amended: the vertical kernel weight is never negative; whenever
VerticalDistance h cz pz > 2 the point lies outside the support window and
the weight is exactly 0 (inside the window VerticalDistance is at most 1,
so the unclamped formula 1 - (1 - d)^2 never goes negative there). -/
theorem EpanechnikovFunction_nonneg (h cz pz : ℝ) :
    0 ≤ EpanechnikovFunction h cz pz ∧
    (2 < VerticalDistance h cz pz → EpanechnikovFunction h cz pz = 0) :=
  ⟨epan_nonneg h cz pz, fun hvd => epan_zero_of_two_lt hvd⟩

/-- Witness for the amended C6 at height 1, center z 0, point z 10, where
VerticalDistance is 76/3 > 2 and the weight is 0. -/
theorem EpanechnikovFunction_nonneg_witness :
    2 < VerticalDistance 1 0 10 ∧ EpanechnikovFunction 1 0 10 = 0 := by
  have hvd : 2 < VerticalDistance 1 0 10 := by
    rw [vd_far]; norm_num
  exact ⟨hvd, (EpanechnikovFunction_nonneg 1 0 10).2 hvd⟩

/-- C3: InCylinder holds iff the planar distance from the point to the
center is at most the radius and z lies in [cz - h/2, cz + h/2]; both
boundary tests are inclusive. -/
theorem InCylinder_iff_dist (px py pz r h cx cy cz : ℝ) (hr : 0 ≤ r) (hh : 0 ≤ h) :
    InCylinder px py pz r h cx cy cz ↔
      (Real.sqrt ((px - cx) ^ 2 + (py - cy) ^ 2) ≤ r ∧
        cz - h / 2 ≤ pz ∧ pz ≤ cz + h / 2) := by
  unfold InCylinder
  constructor
  · rintro ⟨hp, hz1, hz2⟩
    refine ⟨?_, by linarith, by linarith⟩
    calc Real.sqrt ((px - cx) ^ 2 + (py - cy) ^ 2)
        ≤ Real.sqrt (r ^ 2) := Real.sqrt_le_sqrt hp
      _ = r := Real.sqrt_sq hr
  · rintro ⟨hp, hz1, hz2⟩
    exact ⟨(Real.sqrt_le_left hr).mp hp, by linarith, by linarith⟩

/-- Witness for C3: point (1,0,0), radius 1, height 2, center the origin —
the point lies exactly at the radius boundary and membership holds. -/
theorem InCylinder_iff_dist_witness :
    (0 : ℝ) ≤ 1 ∧ (0 : ℝ) ≤ 2 ∧
    (InCylinder 1 0 0 1 2 0 0 0 ↔
      (Real.sqrt (((1 : ℝ) - 0) ^ 2 + ((0 : ℝ) - 0) ^ 2) ≤ 1 ∧
        (0 : ℝ) - 2 / 2 ≤ 0 ∧ (0 : ℝ) ≤ 0 + 2 / 2)) :=
  ⟨by norm_num, by norm_num,
    InCylinder_iff_dist 1 0 0 1 2 0 0 0 (by norm_num) (by norm_num)⟩

/-- C7: for positive width the horizontal kernel weight lies in (0, 1] (so
it is never 0), equals 1 exactly when the point coincides with the center,
and is strictly decreasing in the planar distance to the center. -/
theorem GaussFunction_range_mono (w cx cy : ℝ) (hw : 0 < w) (px py qx qy : ℝ) :
    0 < GaussFunction w cx cy px py ∧
    GaussFunction w cx cy px py ≤ 1 ∧
    (GaussFunction w cx cy px py = 1 ↔ px = cx ∧ py = cy) ∧
    (planarDistance cx cy px py < planarDistance cx cy qx qy →
      GaussFunction w cx cy qx qy < GaussFunction w cx cy px py) := by
  have hw2 : 0 < w / 2 := by linarith
  refine ⟨Real.exp_pos _, ?_, ?_, ?_⟩
  · rw [GaussFunction, Real.exp_le_one_iff]
    nlinarith [sq_nonneg (planarDistance cx cy px py / (w / 2))]
  · rw [GaussFunction, Real.exp_eq_one_iff]
    constructor
    · intro h0
      have ht2 : (planarDistance cx cy px py / (w / 2)) ^ 2 = 0 := by linarith
      have ht : planarDistance cx cy px py / (w / 2) = 0 := sq_eq_zero_iff.mp ht2
      rcases div_eq_zero_iff.mp ht with hd | hb
      · have hS : (px - cx) ^ 2 + (py - cy) ^ 2 = 0 :=
          (Real.sqrt_eq_zero (by positivity)).mp hd
        have h1 : (px - cx) ^ 2 = 0 := by
          nlinarith [sq_nonneg (px - cx), sq_nonneg (py - cy)]
        have h2 : (py - cy) ^ 2 = 0 := by
          nlinarith [sq_nonneg (px - cx), sq_nonneg (py - cy)]
        exact ⟨sub_eq_zero.mp (sq_eq_zero_iff.mp h1),
          sub_eq_zero.mp (sq_eq_zero_iff.mp h2)⟩
      · exact absurd hb (ne_of_gt hw2)
    · rintro ⟨h1, h2⟩
      subst h1
      subst h2
      norm_num [planarDistance, Real.sqrt_zero]
  · intro hlt
    rw [GaussFunction, GaussFunction, Real.exp_lt_exp]
    have h0 : 0 ≤ planarDistance cx cy px py := Real.sqrt_nonneg _
    have huv : planarDistance cx cy px py / (w / 2) <
        planarDistance cx cy qx qy / (w / 2) := (div_lt_div_iff_of_pos_right hw2).mpr hlt
    have hu0 : 0 ≤ planarDistance cx cy px py / (w / 2) := div_nonneg h0 hw2.le
    nlinarith [mul_pos (sub_pos.mpr huv)
      (by linarith : 0 < planarDistance cx cy qx qy / (w / 2) +
        planarDistance cx cy px py / (w / 2))]

/-- Witness for C7 at width 2, center the origin, comparing the center
itself with the point (1, 0), which is strictly farther away. -/
theorem GaussFunction_range_mono_witness :
    (0 : ℝ) < 2 ∧
    (0 < GaussFunction 2 0 0 0 0 ∧
     GaussFunction 2 0 0 0 0 ≤ 1 ∧
     (GaussFunction 2 0 0 0 0 = 1 ↔ (0 : ℝ) = 0 ∧ (0 : ℝ) = 0) ∧
     (planarDistance 0 0 0 0 < planarDistance 0 0 1 0 →
       GaussFunction 2 0 0 1 0 < GaussFunction 2 0 0 0 0)) :=
  ⟨by norm_num, GaussFunction_range_mono 2 0 0 (by norm_num) 0 0 1 0⟩

/-- C10: InCylinder returns the same result for radius r and for radius -r,
because the squared planar distance is compared against the squared radius. -/
theorem InCylinder_neg_radius (px py pz r h cx cy cz : ℝ) :
    InCylinder px py pz r h cx cy cz ↔ InCylinder px py pz (-r) h cx cy cz := by
  have hr : (-r) ^ 2 = r ^ 2 := by ring
  unfold InCylinder
  rw [hr]

lemma dist3_nonneg (p q : Point3) : 0 ≤ dist3 p q := Real.sqrt_nonneg _

lemma dist3_eval (p q : Point3) (r : ℝ) (hr : 0 ≤ r)
    (hsq : (p.1 - q.1) ^ 2 + (p.2.1 - q.2.1) ^ 2 + (p.2.2 - q.2.2) ^ 2 = r ^ 2) :
    dist3 p q = r := by
  rw [dist3, hsq, Real.sqrt_sq hr]

lemma innerScan_nil (eps : ℝ) (p : Point3) (j dflt : ℕ) :
    innerScan eps p [] j dflt = dflt := rfl

lemma innerScan_cons_hit {eps : ℝ} {p q : Point3} (l : List Point3) (j dflt : ℕ)
    (hd : dist3 p q < eps) : innerScan eps p (q :: l) j dflt = j := by
  simp only [innerScan]
  rw [if_pos hd]

lemma innerScan_cons_miss {eps : ℝ} {p q : Point3} (l : List Point3) (j dflt : ℕ)
    (hd : ¬ dist3 p q < eps) :
    innerScan eps p (q :: l) j dflt = innerScan eps p l (j + 1) dflt := by
  simp only [innerScan]
  rw [if_neg hd]

lemma innerScan_spec (eps : ℝ) (p : Point3) :
    ∀ (l : List Point3) (j dflt : ℕ),
      (innerScan eps p l j dflt = dflt ∧
        ∀ k, k < l.length → ¬ dist3 p (l.getD k default3) < eps) ∨
      (∃ k, k < l.length ∧ innerScan eps p l j dflt = j + k ∧
        dist3 p (l.getD k default3) < eps ∧
        ∀ m, m < k → ¬ dist3 p (l.getD m default3) < eps) := by
  intro l
  induction l with
  | nil =>
    intro j dflt
    left
    exact ⟨rfl, fun k hk => absurd hk (by simp)⟩
  | cons q rest ih =>
    intro j dflt
    by_cases hd : dist3 p q < eps
    · right
      refine ⟨0, by simp, ?_, by simpa using hd, fun m hm => absurd hm (by omega)⟩
      rw [innerScan_cons_hit rest j dflt hd]
      omega
    · rcases ih (j + 1) dflt with ⟨h1, h2⟩ | ⟨k, hk, heq, hdk, hmin⟩
      · left
        refine ⟨by rw [innerScan_cons_miss rest j dflt hd, h1], ?_⟩
        intro k hk
        cases k with
        | zero => simpa using hd
        | succ m =>
          have hm : m < rest.length := by simpa using hk
          simpa using h2 m hm
      · right
        refine ⟨k + 1, by simpa using hk, ?_, by simpa using hdk, ?_⟩
        · rw [innerScan_cons_miss rest j dflt hd, heq]
          omega
        · intro m hm
          cases m with
          | zero => simpa using hd
          | succ m2 =>
            have hm2 : m2 < k := by omega
            simpa using hmin m2 hm2

lemma ctrGet_take {ctr : List Point3} {i k : ℕ} (hk : k < i) :
    (ctr.take i).getD k default3 = ctrGet ctr k := by
  rw [ctrGet]
  simp [List.getD_eq_getElem?_getD, List.getElem?_take_of_lt hk]

lemma innerScan_eq_leastMatchId (ctr : List Point3) (eps : ℝ) (i : ℕ)
    (hi : i ≤ ctr.length) :
    innerScan eps (ctrGet ctr i) (ctr.take i) 0 i = leastMatchId ctr eps i := by
  have hlen : (ctr.take i).length = i := by
    rw [List.length_take]
    omega
  rcases innerScan_spec eps (ctrGet ctr i) (ctr.take i) 0 i with
    ⟨h1, h2⟩ | ⟨k, hk, heq, hdk, hmin⟩
  · rw [h1, leastMatchId, dif_neg]
    push_neg
    intro j hj
    have hj2 : j < (ctr.take i).length := by omega
    have hnj := h2 j hj2
    rw [ctrGet_take (by omega : j < i)] at hnj
    exact not_lt.mp hnj
  · have hki : k < i := by omega
    have hdk2 : dist3 (ctrGet ctr i) (ctrGet ctr k) < eps := by
      rwa [ctrGet_take hki] at hdk
    have hex : ∃ j, j < i ∧ dist3 (ctrGet ctr i) (ctrGet ctr j) < eps := ⟨k, hki, hdk2⟩
    rw [heq, zero_add, leastMatchId, dif_pos hex]
    refine ((Nat.find_eq_iff hex).mpr ⟨⟨hki, hdk2⟩, fun m hm => ?_⟩).symm
    rintro ⟨hmi, hdm⟩
    exact hmin m hm (by rwa [ctrGet_take (by omega : m < i)])

/-- C1: FindCluster assigns to each centroid i, in input order, the id of
the smallest earlier index j whose 3D Euclidean distance to centroid i is
strictly below epsilon, and i itself when no such j exists; the output rows
keep the input coordinates in input order. -/
theorem FindCluster_eq_leastMatch (ctr : List Point3) (eps : ℝ) :
    FindCluster ctr eps =
      ctr.zip ((List.range ctr.length).map (leastMatchId ctr eps)) := by
  rw [FindCluster, findClusterIds]
  congr 1
  apply List.map_congr_left
  intro i hi
  exact innerScan_eq_leastMatchId ctr eps i (Nat.le_of_lt (List.mem_range.mp hi))

/-- C8: FindCluster raises no errors (it is a total function in this model);
for epsilon ≤ 0 every centroid is its own cluster leader, i.e. the id list
is 0, 1, ..., n-1, and the empty input yields the empty output. -/
theorem FindCluster_nonpos_eps (ctr : List Point3) (eps : ℝ) :
    (eps ≤ 0 → findClusterIds ctr eps = List.range ctr.length) ∧
    FindCluster [] eps = [] := by
  refine ⟨fun heps => ?_, rfl⟩
  rw [findClusterIds]
  have hid : ∀ i ∈ List.range ctr.length,
      innerScan eps (ctrGet ctr i) (ctr.take i) 0 i = i := by
    intro i _
    rcases innerScan_spec eps (ctrGet ctr i) (ctr.take i) 0 i with
      ⟨h1, _⟩ | ⟨k, _, _, hdk, _⟩
    · exact h1
    · exact absurd hdk (not_lt.mpr (le_trans heps (dist3_nonneg _ _)))
  rw [List.map_congr_left hid, List.map_id']

/-- Witness for C8: epsilon 0 on a single centroid yields the id list [0]. -/
theorem FindCluster_nonpos_eps_witness :
    (0 : ℝ) ≤ 0 ∧
    findClusterIds [((0 : ℝ), (0 : ℝ), (0 : ℝ))] 0 = List.range 1 :=
  ⟨le_refl 0, (FindCluster_nonpos_eps [((0 : ℝ), (0 : ℝ), (0 : ℝ))] 0).1 (le_refl 0)⟩

lemma length_findClusterIds (ctr : List Point3) (eps : ℝ) :
    (findClusterIds ctr eps).length = ctr.length := by
  simp [findClusterIds]

/-- First centroid of the C9 example: (0, 0, 0). -/
noncomputable def exA : Point3 := (0, 0, 0)

/-- Second centroid of the C9 example: (2/5, 0, 0). -/
noncomputable def exB : Point3 := (2 / 5, 0, 0)

/-- Third centroid of the C9 example: (4/5, 0, 0). -/
noncomputable def exC : Point3 := (4 / 5, 0, 0)

/-- The C9 example input sequence. -/
noncomputable def exCtr : List Point3 := [exA, exB, exC]

lemma dist_exA_exA : dist3 exA exA = 0 :=
  dist3_eval exA exA 0 (le_refl 0) (by norm_num [exA])

lemma dist_exB_exA : dist3 exB exA = 2 / 5 :=
  dist3_eval exB exA (2 / 5) (by norm_num) (by norm_num [exA, exB])

lemma dist_exC_exA : dist3 exC exA = 4 / 5 :=
  dist3_eval exC exA (4 / 5) (by norm_num) (by norm_num [exA, exC])

lemma dist_exC_exB : dist3 exC exB = 2 / 5 :=
  dist3_eval exC exB (2 / 5) (by norm_num) (by norm_num [exB, exC])

lemma ids_exCtr : findClusterIds exCtr (1 / 2) = [0, 0, 1] := by
  have e1 : innerScan (1 / 2) (ctrGet exCtr 1) (exCtr.take 1) 0 1 = 0 := by
    rw [show ctrGet exCtr 1 = exB from rfl, show exCtr.take 1 = [exA] from rfl]
    exact innerScan_cons_hit _ _ _ (by rw [dist_exB_exA]; norm_num)
  have e2 : innerScan (1 / 2) (ctrGet exCtr 2) (exCtr.take 2) 0 2 = 1 := by
    rw [show ctrGet exCtr 2 = exC from rfl, show exCtr.take 2 = [exA, exB] from rfl,
      innerScan_cons_miss _ _ _ (by rw [dist_exC_exA]; norm_num),
      innerScan_cons_hit _ _ _ (by rw [dist_exC_exB]; norm_num)]
  rw [findClusterIds, show exCtr.length = 3 from rfl,
    show List.range 3 = [0, 1, 2] from rfl]
  simp only [List.map_cons, List.map_nil]
  rw [show innerScan (1 / 2) (ctrGet exCtr 0) (exCtr.take 0) 0 0 = 0 from rfl, e1, e2]

lemma leaders_exCtr : leaderCoords exCtr (1 / 2) = [exA, exA, exB] := by
  rw [leaderCoords, ids_exCtr]
  rfl

lemma ids_leaders_exCtr : findClusterIds [exA, exA, exB] (1 / 2) = [0, 0, 0] := by
  have e1 : innerScan (1 / 2) (ctrGet [exA, exA, exB] 1) ([exA, exA, exB].take 1) 0 1 = 0 := by
    rw [show ctrGet [exA, exA, exB] 1 = exA from rfl,
      show [exA, exA, exB].take 1 = [exA] from rfl]
    exact innerScan_cons_hit _ _ _ (by rw [dist_exA_exA]; norm_num)
  have e2 : innerScan (1 / 2) (ctrGet [exA, exA, exB] 2) ([exA, exA, exB].take 2) 0 2 = 0 := by
    rw [show ctrGet [exA, exA, exB] 2 = exB from rfl,
      show [exA, exA, exB].take 2 = [exA, exA] from rfl]
    exact innerScan_cons_hit _ _ _ (by rw [dist_exB_exA]; norm_num)
  rw [findClusterIds, show ([exA, exA, exB] : List Point3).length = 3 from rfl,
    show List.range 3 = [0, 1, 2] from rfl]
  simp only [List.map_cons, List.map_nil]
  rw [show innerScan (1 / 2) (ctrGet [exA, exA, exB] 0) ([exA, exA, exB].take 0) 0 0 = 0
      from rfl, e1, e2]

/-- C9 counterexample: for the centroids (0,0,0), (2/5,0,0), (4/5,0,0) and
epsilon 1/2, FindCluster yields ids [0, 0, 1]; replacing each centroid by its
leader's coordinates and re-clustering with the same epsilon yields ids
[0, 0, 0], so the assignment is not a fixed point under re-clustering of the
leader coordinates. -/
theorem FindCluster_leader_recluster_counterexample :
    findClusterIds (leaderCoords exCtr (1 / 2)) (1 / 2) ≠
      findClusterIds exCtr (1 / 2) := by
  rw [leaders_exCtr, ids_exCtr, ids_leaders_exCtr]
  simp

/-- C9 amended: the coordinate columns of FindCluster's output are exactly
the input coordinates, so re-running FindCluster on the output's coordinate
rows with the same epsilon reproduces the same ids; re-clustering the
leaders' coordinates, by contrast, can change the ids. -/
theorem FindCluster_recluster_output (ctr : List Point3) (eps : ℝ) :
    findClusterIds ((FindCluster ctr eps).map Prod.fst) eps =
      findClusterIds ctr eps := by
  rw [FindCluster,
    List.map_fst_zip _ _ (le_of_eq (length_findClusterIds ctr eps).symm)]
